import Mathlib

/-!
Verification of the gym-log workout tracker (`src/App.tsx`).

The development embeds the data model and the pure logic of the single-file
React application: the `localStorage` persistence pair `loadWorkouts` /
`saveWorkouts` (with JSON serialization modelled by an executable JSON value
type, serializer and parser), the per-workout aggregation `sumWorkoutVolume` /
`sumWorkoutReps`, the date-descending sort and the time-series view, the
`Map`-based per-exercise aggregation feeding the top-exercises chart, the
draft-editing operations with their last-element guards, and the commit
handler `handleSaveWorkout` with its validation.

Numbers are embedded as `Nat` (the app stores non-negative reps/weights);
a set field that may be absent on data read back from storage is an
`Option Nat`, and the JavaScript `x || 0` guard is `numOrZero`.
JavaScript's insertion-ordered `Map` is an association list with
insert-or-update-in-place (`mapSet`), and the stable `Array.prototype.sort`
is `List.insertionSort`.
-/

/-! ## JSON values

JavaScript's `JSON.parse` / `JSON.stringify` are modelled executably: a JSON
value type (numbers restricted to integers, which covers everything the app
writes), a serializer, and a total fuel-based parser. `JValue`, `JItems` and
`JFields` are mutually inductive so that all functions over them are
structurally recursive and kernel-reducible. -/

mutual
inductive JValue where
  | jnull
  | jbool (b : Bool)
  | jnum (n : Int)
  | jstr (s : String)
  | jarr (xs : JItems)
  | jobj (fs : JFields)
deriving DecidableEq
inductive JItems where
  | nil
  | cons (v : JValue) (rest : JItems)
deriving DecidableEq
inductive JFields where
  | nil
  | cons (k : String) (v : JValue) (rest : JFields)
deriving DecidableEq
end

def JItems.toList : JItems → List JValue
  | .nil => []
  | .cons v rest => v :: rest.toList

def JItems.ofList : List JValue → JItems
  | [] => .nil
  | v :: rest => .cons v (JItems.ofList rest)

def JFields.ofList : List (String × JValue) → JFields
  | [] => .nil
  | (k, v) :: rest => .cons k v (JFields.ofList rest)

/-! ### Serializer (models `JSON.stringify`) -/

/-- One character of a serialized JSON string: quote and backslash are
escaped, everything else is emitted as is. -/
def escChar (c : Char) : List Char :=
  if c = '"' ∨ c = '\\' then ['\\', c] else [c]

def escList (cs : List Char) : List Char :=
  cs.foldr (fun c acc => escChar c ++ acc) []

/-- Decimal digit characters of `n`, most significant first. The fuel
argument only makes the recursion structural; `natChars` supplies enough. -/
def natCharsAux : Nat → Nat → List Char
  | 0, _ => []
  | fuel + 1, n =>
      if n < 10 then [Char.ofNat (48 + n)]
      else natCharsAux fuel (n / 10) ++ [Char.ofNat (48 + n % 10)]

def natChars (n : Nat) : List Char := natCharsAux (n + 1) n

def intChars (i : Int) : List Char :=
  if i < 0 then '-' :: natChars i.natAbs else natChars i.natAbs

mutual
def serVal : JValue → List Char
  | .jnull => ['n', 'u', 'l', 'l']
  | .jbool true => ['t', 'r', 'u', 'e']
  | .jbool false => ['f', 'a', 'l', 's', 'e']
  | .jnum n => intChars n
  | .jstr s => '"' :: (escList s.data ++ ['"'])
  | .jarr xs => '[' :: (serItems xs ++ [']'])
  | .jobj fs => '{' :: (serFields fs ++ ['}'])
def serItems : JItems → List Char
  | .nil => []
  | .cons x .nil => serVal x
  | .cons x (.cons y xs) => serVal x ++ ',' :: serItems (.cons y xs)
def serFields : JFields → List Char
  | .nil => []
  | .cons k v .nil => '"' :: (escList k.data ++ ('"' :: ':' :: serVal v))
  | .cons k v (.cons k2 v2 fs) =>
      ('"' :: (escList k.data ++ ('"' :: ':' :: serVal v))) ++
        ',' :: serFields (.cons k2 v2 fs)
end

/-- Model of `JSON.stringify` on a JSON value. -/
def stringifyVal (v : JValue) : String := String.mk (serVal v)

/-! ### Parser (models `JSON.parse`)

The parser returns `none` exactly where `JSON.parse` would throw; the
caller of the model therefore sees a thrown parse as `none`, matching the
`try … catch` in `loadWorkouts`. -/

def isDigitCh (c : Char) : Bool := 48 ≤ c.toNat && c.toNat ≤ 57

/-- Body of a JSON string after the opening quote: a backslash escapes the
next character, a bare quote terminates. -/
def parseStrBody : List Char → Option (List Char × List Char)
  | [] => none
  | '"' :: rest => some ([], rest)
  | '\\' :: c :: cs =>
      match parseStrBody cs with
      | some (s, rest) => some (c :: s, rest)
      | none => none
  | c :: cs =>
      match parseStrBody cs with
      | some (s, rest) => some (c :: s, rest)
      | none => none

/-- Consume a run of decimal digits, accumulating their value. -/
def parseNatAcc (acc : Nat) : List Char → Nat × List Char
  | c :: cs =>
      if isDigitCh c then parseNatAcc (acc * 10 + (c.toNat - 48)) cs
      else (acc, c :: cs)
  | [] => (acc, [])

mutual
def parseVal : Nat → List Char → Option (JValue × List Char)
  | 0, _ => none
  | _ + 1, 'n' :: 'u' :: 'l' :: 'l' :: cs => some (.jnull, cs)
  | _ + 1, 't' :: 'r' :: 'u' :: 'e' :: cs => some (.jbool true, cs)
  | _ + 1, 'f' :: 'a' :: 'l' :: 's' :: 'e' :: cs => some (.jbool false, cs)
  | _ + 1, '"' :: cs =>
      match parseStrBody cs with
      | some (s, rest) => some (.jstr (String.mk s), rest)
      | none => none
  | fuel + 1, '[' :: cs =>
      match cs with
      | [] => none
      | c :: cs2 =>
          if c = ']' then some (.jarr .nil, cs2)
          else
            match parseItems fuel (c :: cs2) with
            | some (xs, rest) => some (.jarr xs, rest)
            | none => none
  | fuel + 1, '{' :: cs =>
      match cs with
      | [] => none
      | c :: cs2 =>
          if c = '}' then some (.jobj .nil, cs2)
          else
            match parseFields fuel (c :: cs2) with
            | some (fs, rest) => some (.jobj fs, rest)
            | none => none
  | _ + 1, '-' :: c :: cs =>
      if isDigitCh c then
        some (.jnum (-((parseNatAcc 0 (c :: cs)).1 : Int)), (parseNatAcc 0 (c :: cs)).2)
      else none
  | _ + 1, c :: cs =>
      if isDigitCh c then
        some (.jnum ((parseNatAcc 0 (c :: cs)).1 : Int), (parseNatAcc 0 (c :: cs)).2)
      else none
  | _ + 1, [] => none
def parseItems : Nat → List Char → Option (JItems × List Char)
  | 0, _ => none
  | fuel + 1, cs =>
      match parseVal fuel cs with
      | none => none
      | some (v, rest) =>
          match rest with
          | ',' :: rest2 =>
              match parseItems fuel rest2 with
              | some (xs, rest3) => some (.cons v xs, rest3)
              | none => none
          | ']' :: rest2 => some (.cons v .nil, rest2)
          | _ => none
def parseFields : Nat → List Char → Option (JFields × List Char)
  | 0, _ => none
  | fuel + 1, cs =>
      match cs with
      | '"' :: cs2 =>
          match parseStrBody cs2 with
          | none => none
          | some (k, rest) =>
              match rest with
              | ':' :: rest2 =>
                  match parseVal fuel rest2 with
                  | none => none
                  | some (v, rest3) =>
                      match rest3 with
                      | ',' :: rest4 =>
                          match parseFields fuel rest4 with
                          | some (fs, rest5) => some (.cons (String.mk k) v fs, rest5)
                          | none => none
                      | '}' :: rest4 => some (.cons (String.mk k) v .nil, rest4)
                      | _ => none
              | _ => none
      | _ => none
end

/-- Model of `JSON.parse`: `none` where the real parser throws (including
trailing garbage after a complete value). -/
def parseJson (s : String) : Option JValue :=
  match parseVal (s.data.length + 1) s.data with
  | some (v, []) => some v
  | _ => none

/-! ## String helpers

`String.prototype.trim` and `String.prototype.toLowerCase`, modelled on the
character list so they are kernel-reducible. -/

def trimLeftCh : List Char → List Char
  | [] => []
  | c :: cs => if c.isWhitespace then trimLeftCh cs else c :: cs

def jsTrim (s : String) : String :=
  String.mk (trimLeftCh ((trimLeftCh s.data.reverse).reverse))

def jsToLower (s : String) : String := String.mk (s.data.map Char.toLower)

/-! ## Data model (`App.tsx` lines 17-39)

`reps` and `weight` are `Option Nat`: data read back from storage may lack
a field, and the aggregation code guards every read with `|| 0`. -/

structure SetEntry where
  reps : Option Nat
  weight : Option Nat
deriving DecidableEq

structure ExerciseEntry where
  id : String
  name : String
  sets : List SetEntry
deriving DecidableEq

structure Workout where
  id : String
  date : String
  workoutName : String
  exercises : List ExerciseEntry
  createdAt : String
deriving DecidableEq

/-- The JavaScript guard `x || 0` on a possibly missing number. -/
def numOrZero (x : Option Nat) : Nat := x.getD 0

/-- Line 38: `createSet = () => ({ reps: 10, weight: 0 })`. -/
def createSet : SetEntry := { reps := some 10, weight := some 0 }

/-- Line 39: a fresh exercise with an empty name and one default set; the
random UUID is passed in explicitly. -/
def createExercise (id : String) : ExerciseEntry :=
  { id := id, name := "", sets := [createSet] }

/-! ## Store adapter (`App.tsx` lines 41-54)

`loadWorkouts` returns the parsed JSON array's elements as they are — the
source casts with `as Workout[]` and validates nothing beyond
`Array.isArray` — so the result type here is `List JValue`. -/

def loadWorkouts (raw : Option String) : List JValue :=
  match raw with
  | none => []
  | some s =>
      if s = "" then []
      else
        match parseJson s with
        | some (.jarr xs) => xs.toList
        | some _ => []
        | none => []

/-- Model of `JSON.stringify(items)` for the array `saveWorkouts` writes. -/
def stringifyItems (items : List JValue) : String :=
  stringifyVal (.jarr (JItems.ofList items))

/-! ### Serialization of in-memory workouts

`JSON.stringify` on the app's objects: object fields in declaration order;
a field holding `undefined` (a missing number) is omitted, as
`JSON.stringify` omits it. -/

def setFields (s : SetEntry) : List (String × JValue) :=
  (match s.reps with
   | some n => [("reps", JValue.jnum n)]
   | none => []) ++
  (match s.weight with
   | some n => [("weight", JValue.jnum n)]
   | none => [])

def setToJson (s : SetEntry) : JValue := .jobj (JFields.ofList (setFields s))

def exerciseToJson (ex : ExerciseEntry) : JValue :=
  .jobj (JFields.ofList
    [("id", .jstr ex.id), ("name", .jstr ex.name),
     ("sets", .jarr (JItems.ofList (ex.sets.map setToJson)))])

def workoutToJson (w : Workout) : JValue :=
  .jobj (JFields.ofList
    [("id", .jstr w.id), ("date", .jstr w.date),
     ("workoutName", .jstr w.workoutName),
     ("exercises", .jarr (JItems.ofList (w.exercises.map exerciseToJson))),
     ("createdAt", .jstr w.createdAt)])

/-- Lines 52-54: `saveWorkouts` serializes the full list and overwrites the
persisted blob; the written string is returned. -/
def saveWorkouts (items : List Workout) : String :=
  stringifyItems (items.map workoutToJson)

/-! ## Aggregation (`App.tsx` lines 56-65) -/

/-- Lines 56-61: total volume of one workout, the nested `reduce`. -/
def sumWorkoutVolume (w : Workout) : Nat :=
  w.exercises.foldl
    (fun total ex =>
      total + ex.sets.foldl (fun s st => s + numOrZero st.reps * numOrZero st.weight) 0)
    0

/-- Lines 63-65: total reps of one workout. -/
def sumWorkoutReps (w : Workout) : Nat :=
  w.exercises.foldl
    (fun total ex => total + ex.sets.foldl (fun s st => s + numOrZero st.reps) 0)
    0

/-! ## Dashboard (`App.tsx` lines 75-114)

`dayjs(x).valueOf()` — the timestamp of a date string — is an external
library call; it enters as the parameter `dv`. Likewise the display
formatting `dayjs(x).format('MMM D')` enters as `fmt`. JavaScript's
`Array.prototype.sort` is stable and puts `a` before `b` when the
comparator is non-positive; `List.insertionSort r` with `r a b` = "the
comparator accepts `a` before `b`" has exactly that behaviour. -/

/-- Lines 75-78: copy of `workouts` sorted by date, most recent first
(comparator `dayjs(b.date).valueOf() - dayjs(a.date).valueOf()`). -/
def sortedWorkouts (dv : String → Int) (ws : List Workout) : List Workout :=
  ws.insertionSort (fun a b => dv b.date ≤ dv a.date)

structure LinePoint where
  date : String
  volume : Nat
  reps : Nat
deriving DecidableEq

/-- Lines 81-88: the time series for the chart — the date-descending list,
copied, reversed, and mapped to display records. -/
def lineData (fmt : String → String) (dv : String → Int) (ws : List Workout) :
    List LinePoint :=
  ((sortedWorkouts dv ws).reverse).map
    (fun w => { date := fmt w.date, volume := sumWorkoutVolume w, reps := sumWorkoutReps w })

structure ExAgg where
  name : String
  totalVolume : Nat
  totalReps : Nat
deriving DecidableEq

/-- Association-list lookup: `Map.get`. -/
def mapGet : List (String × ExAgg) → String → Option ExAgg
  | [], _ => none
  | (k2, v) :: rest, k => if k2 = k then some v else mapGet rest k

/-- Insertion-ordered `Map.set`: update in place if the key is present,
append otherwise. -/
def mapSet : List (String × ExAgg) → String → ExAgg → List (String × ExAgg)
  | [], k, v => [(k, v)]
  | (k2, v2) :: rest, k, v =>
      if k2 = k then (k, v) :: rest else (k2, v2) :: mapSet rest k v

/-- Line 98: `ex.sets.reduce((s, set) => s + (set.reps || 0) * (set.weight || 0), 0)`. -/
def exSetsVolume (ex : ExerciseEntry) : Nat :=
  ex.sets.foldl (fun s st => s + numOrZero st.reps * numOrZero st.weight) 0

/-- Line 99: `ex.sets.reduce((s, set) => s + (set.reps || 0), 0)`. -/
def exSetsReps (ex : ExerciseEntry) : Nat :=
  ex.sets.foldl (fun s st => s + numOrZero st.reps) 0

/-- Line 94: the grouping key `ex.name.trim().toLowerCase()`. -/
def exKey (ex : ExerciseEntry) : String := jsToLower (jsTrim ex.name)

/-- Lines 94-100: the body of the aggregation loop for one exercise entry. -/
def insertExercise (m : List (String × ExAgg)) (ex : ExerciseEntry) :
    List (String × ExAgg) :=
  if exKey ex = "" then m
  else
    let current := (mapGet m (exKey ex)).getD
      { name := jsTrim ex.name, totalVolume := 0, totalReps := 0 }
    mapSet m (exKey ex)
      { name := current.name,
        totalVolume := current.totalVolume + exSetsVolume ex,
        totalReps := current.totalReps + exSetsReps ex }

/-- Lines 90-102: the `byExercise` map after folding every exercise of
every workout, in order. -/
def byExercise (ws : List Workout) : List (String × ExAgg) :=
  ws.foldl (fun m w => w.exercises.foldl insertExercise m) []

structure BarPoint where
  exercise : String
  volume : Nat
  reps : Nat
deriving DecidableEq

/-- Lines 104-111: map values sorted by total volume descending, first 10,
shaped for the bar chart. -/
def exerciseBars (ws : List Workout) : List BarPoint :=
  ((((byExercise ws).map Prod.snd).insertionSort
      (fun a b => b.totalVolume ≤ a.totalVolume)).take 10).map
    (fun x => { exercise := x.name, volume := x.totalVolume, reps := x.totalReps })

/-! ## Draft editor (`App.tsx` lines 116-152)

Each operation maps the previous `exercises` state to the next one.
Fresh ids for new exercises come in as operation arguments. -/

/-- Lines 116-118. -/
def updateExerciseName (exerciseId name : String) (prev : List ExerciseEntry) :
    List ExerciseEntry :=
  prev.map (fun ex => if ex.id = exerciseId then { ex with name := name } else ex)

/-- Lines 120-122. -/
def addExercise (freshId : String) (prev : List ExerciseEntry) : List ExerciseEntry :=
  prev ++ [createExercise freshId]

/-- Lines 124-126: remove by id unless it is the only exercise. -/
def removeExercise (exerciseId : String) (prev : List ExerciseEntry) :
    List ExerciseEntry :=
  if prev.length = 1 then prev else prev.filter (fun ex => ex.id ≠ exerciseId)

/-- Lines 128-132. -/
def addSet (exerciseId : String) (prev : List ExerciseEntry) : List ExerciseEntry :=
  prev.map (fun ex =>
    if ex.id = exerciseId then { ex with sets := ex.sets ++ [createSet] } else ex)

/-- The set-list filter `sets.filter((_, i) => i !== setIndex)`: every
element whose position differs from `setIndex`. -/
def filterIdxNe (sets : List SetEntry) (setIndex : Nat) : List SetEntry :=
  ((sets.enum).filter (fun p => p.1 ≠ setIndex)).map Prod.snd

/-- Lines 134-142: drop the set at `setIndex` unless it is the only set. -/
def removeSet (exerciseId : String) (setIndex : Nat) (prev : List ExerciseEntry) :
    List ExerciseEntry :=
  prev.map (fun ex =>
    if ex.id ≠ exerciseId then ex
    else if ex.sets.length = 1 then ex
    else { ex with sets := filterIdxNe ex.sets setIndex })

inductive SetField where
  | repsField
  | weightField
deriving DecidableEq

def setWith (st : SetEntry) (field : SetField) (value : Nat) : SetEntry :=
  match field with
  | .repsField => { st with reps := some value }
  | .weightField => { st with weight := some value }

/-- Lines 144-152. -/
def updateSet (exerciseId : String) (setIndex : Nat) (field : SetField) (value : Nat)
    (prev : List ExerciseEntry) : List ExerciseEntry :=
  prev.map (fun ex =>
    if ex.id = exerciseId then
      { ex with
        sets := (ex.sets.enum).map
          (fun p => if p.1 = setIndex then setWith p.2 field value else p.2) }
    else ex)

/-- One draft-editing operation, with any fresh id as data. -/
inductive DraftOp where
  | opAddExercise (freshId : String)
  | opRemoveExercise (exerciseId : String)
  | opRename (exerciseId name : String)
  | opAddSet (exerciseId : String)
  | opRemoveSet (exerciseId : String) (setIndex : Nat)
  | opUpdateSet (exerciseId : String) (setIndex : Nat) (field : SetField) (value : Nat)
deriving DecidableEq

def applyOp (prev : List ExerciseEntry) : DraftOp → List ExerciseEntry
  | .opAddExercise i => addExercise i prev
  | .opRemoveExercise i => removeExercise i prev
  | .opRename i n => updateExerciseName i n prev
  | .opAddSet i => addSet i prev
  | .opRemoveSet i idx => removeSet i idx prev
  | .opUpdateSet i idx f v => updateSet i idx f v prev

def applyOps (prev : List ExerciseEntry) (ops : List DraftOp) : List ExerciseEntry :=
  ops.foldl applyOp prev

/-! ## Commit (`App.tsx` lines 154-181) -/

inductive Tab where
  | log
  | history
  | analytics
deriving DecidableEq

/-- The component state touched by `handleSaveWorkout`: the in-memory
collection, the persisted blob (the mirror of `localStorage`), and the
draft fields. -/
structure AppState where
  workouts : List Workout
  stored : Option String
  tab : Tab
  date : String
  workoutName : String
  exercises : List ExerciseEntry
deriving DecidableEq

/-- External inputs of one commit: the workout's random UUID, the fresh
exercise id for the reset draft, today's date string, and the creation
timestamp. -/
structure CommitIds where
  newId : String
  freshExId : String
  todayStr : String
  createdAt : String

/-- Lines 154-181: validate, build the workout, prepend, persist, reset the
draft, switch to the history tab. The second component is the alert
message, if any. -/
def handleSaveWorkout (ids : CommitIds) (st : AppState) : AppState × Option String :=
  if jsTrim st.workoutName = "" then
    (st, some "Please enter a workout name.")
  else if st.exercises.any (fun ex => jsTrim ex.name = "") then
    (st, some "Please enter all exercise names.")
  else
    let workout : Workout :=
      { id := ids.newId, date := st.date, workoutName := jsTrim st.workoutName,
        exercises := st.exercises, createdAt := ids.createdAt }
    let next := workout :: st.workouts
    ({ workouts := next, stored := some (saveWorkouts next), tab := Tab.history,
       date := ids.todayStr, workoutName := "",
       exercises := [createExercise ids.freshExId] }, none)

/-! ## Generic list lemmas -/

theorem foldl_add_eq_sum {α : Type} (f : α → Nat) :
    ∀ (l : List α) (n : Nat), l.foldl (fun acc a => acc + f a) n = n + (l.map f).sum := by
  intro l
  induction l with
  | nil => intro n; simp
  | cons a t ih => intro n; simp only [List.foldl_cons, List.map_cons, List.sum_cons, ih]; omega

/-! ## C4: per-workout totals -/

theorem exSetsVolume_eq_sum (ex : ExerciseEntry) :
    exSetsVolume ex = (ex.sets.map (fun st => numOrZero st.reps * numOrZero st.weight)).sum := by
  have h := foldl_add_eq_sum (fun st => numOrZero st.reps * numOrZero st.weight) ex.sets 0
  simpa [exSetsVolume] using h

theorem exSetsReps_eq_sum (ex : ExerciseEntry) :
    exSetsReps ex = (ex.sets.map (fun st => numOrZero st.reps)).sum := by
  have h := foldl_add_eq_sum (fun st => numOrZero st.reps) ex.sets 0
  simpa [exSetsReps] using h

theorem sumWorkoutVolume_eq_sum (w : Workout) :
    sumWorkoutVolume w = (w.exercises.map exSetsVolume).sum := by
  have h := foldl_add_eq_sum exSetsVolume w.exercises 0
  simpa [sumWorkoutVolume, exSetsVolume] using h

theorem sumWorkoutReps_eq_sum (w : Workout) :
    sumWorkoutReps w = (w.exercises.map exSetsReps).sum := by
  have h := foldl_add_eq_sum exSetsReps w.exercises 0
  simpa [sumWorkoutReps, exSetsReps] using h

/-- The workout of the spec's end-to-end scenario. -/
def pushDayWorkout : Workout :=
  { id := "w1", date := "2024-01-01", workoutName := "Push Day",
    exercises :=
      [{ id := "e1", name := "Bench Press",
         sets := [{ reps := some 10, weight := some 40 },
                  { reps := some 8, weight := some 45 }] }],
    createdAt := "2024-01-01T00:00:00.000Z" }

/-- C4: `sumWorkoutVolume` is the sum over all exercises and sets of
reps times weight and `sumWorkoutReps` the sum of reps, a missing or zero
field contributing 0; on the two-set bench workout they are 760 and 18. -/
theorem c4_workout_totals :
    (∀ w : Workout,
      sumWorkoutVolume w =
        (w.exercises.map
          (fun ex => (ex.sets.map (fun st => numOrZero st.reps * numOrZero st.weight)).sum)).sum ∧
      sumWorkoutReps w =
        (w.exercises.map (fun ex => (ex.sets.map (fun st => numOrZero st.reps)).sum)).sum) ∧
    sumWorkoutVolume pushDayWorkout = 760 ∧ sumWorkoutReps pushDayWorkout = 18 := by
  refine ⟨fun w => ⟨?_, ?_⟩, by decide, by decide⟩
  · rw [sumWorkoutVolume_eq_sum]
    exact congrArg List.sum (List.map_congr_left fun ex _ => exSetsVolume_eq_sum ex)
  · rw [sumWorkoutReps_eq_sum]
    exact congrArg List.sum (List.map_congr_left fun ex _ => exSetsReps_eq_sum ex)

/-! ## C7: date-descending sort -/

/-- C7: `sortedWorkouts` is a permutation of its input, pairwise ordered
with the most recent date (largest timestamp) first, and preserves the
multiplicity of every workout — two same-date workouts both appear exactly
once. -/
theorem c7_sorted_by_date_descending (dv : String → Int) (ws : List Workout) :
    (sortedWorkouts dv ws).Perm ws ∧
    (sortedWorkouts dv ws).Pairwise (fun a b => dv b.date ≤ dv a.date) ∧
    ∀ w : Workout, (sortedWorkouts dv ws).count w = ws.count w := by
  haveI htot : IsTotal Workout (fun a b => dv b.date ≤ dv a.date) :=
    ⟨fun a b => Int.le_total (dv b.date) (dv a.date)⟩
  haveI htr : IsTrans Workout (fun a b => dv b.date ≤ dv a.date) :=
    ⟨fun _ _ _ hab hbc => le_trans hbc hab⟩
  refine ⟨List.perm_insertionSort _ ws, List.sorted_insertionSort _ ws, fun w => ?_⟩
  exact (List.perm_insertionSort _ ws).count_eq w

/-! ## C5: the time series -/

/-- C5: the chart's sequence is the date-descending list reversed to
chronological order, each workout mapped to its display date, volume and
reps; the reversed list is pairwise in ascending date order. -/
theorem c5_time_series (fmt : String → String) (dv : String → Int) (ws : List Workout) :
    lineData fmt dv ws =
      ((sortedWorkouts dv ws).reverse).map
        (fun w => { date := fmt w.date, volume := sumWorkoutVolume w,
                    reps := sumWorkoutReps w : LinePoint }) ∧
    ((sortedWorkouts dv ws).reverse).Pairwise (fun a b => dv a.date ≤ dv b.date) := by
  refine ⟨rfl, ?_⟩
  rw [List.pairwise_reverse]
  exact (c7_sorted_by_date_descending dv ws).2.1

/-! ## C3: validation failure aborts the commit -/

/-- C3: if the workout name, or any exercise name, is blank after
trimming, `handleSaveWorkout` leaves the whole state — persisted blob and
draft included — unchanged and only produces a message. -/
theorem c3_commit_validation_aborts (ids : CommitIds) (st : AppState)
    (h : jsTrim st.workoutName = "" ∨ ∃ ex ∈ st.exercises, jsTrim ex.name = "") :
    (handleSaveWorkout ids st).1 = st ∧ (handleSaveWorkout ids st).2 ≠ none := by
  by_cases h1 : jsTrim st.workoutName = ""
  · simp [handleSaveWorkout, h1]
  · have h2 : st.exercises.any (fun ex => jsTrim ex.name = "") = true := by
      rcases h with h | ⟨ex, hmem, hex⟩
      · exact absurd h h1
      · exact List.any_eq_true.mpr ⟨ex, hmem, by simpa using hex⟩
    simp [handleSaveWorkout, h1, h2]

/-- Demo commit inputs for witnesses. -/
def demoIds : CommitIds :=
  { newId := "w9", freshExId := "e9", todayStr := "2024-02-02", createdAt := "T1" }

/-- Demo state whose workout name is blank after trimming. -/
def demoBlankNameState : AppState :=
  { workouts := [pushDayWorkout], stored := some "blob", tab := Tab.log,
    date := "2024-02-01", workoutName := "   ",
    exercises := [{ id := "e1", name := "Squat",
                    sets := [{ reps := some 5, weight := some 100 }] }] }

/-- Witness for C3: a commit with a blank workout name changes nothing. -/
theorem c3_witness :
    (handleSaveWorkout demoIds demoBlankNameState).1 = demoBlankNameState :=
  (c3_commit_validation_aborts demoIds demoBlankNameState (Or.inl (by decide))).1

/-! ## C8 and C10: successful commit -/

/-- The workout record a successful commit constructs (lines 165-171). -/
def committedWorkout (ids : CommitIds) (st : AppState) : Workout :=
  { id := ids.newId, date := st.date, workoutName := jsTrim st.workoutName,
    exercises := st.exercises, createdAt := ids.createdAt }

theorem handleSaveWorkout_success (ids : CommitIds) (st : AppState)
    (h1 : jsTrim st.workoutName ≠ "")
    (h2 : ∀ ex ∈ st.exercises, jsTrim ex.name ≠ "") :
    handleSaveWorkout ids st =
      ({ workouts := committedWorkout ids st :: st.workouts,
         stored := some (saveWorkouts (committedWorkout ids st :: st.workouts)),
         tab := Tab.history, date := ids.todayStr, workoutName := "",
         exercises := [createExercise ids.freshExId] }, none) := by
  have hany : st.exercises.any (fun ex => jsTrim ex.name = "") = false := by
    rw [List.any_eq_false]
    intro ex hmem
    simpa using h2 ex hmem
  simp [handleSaveWorkout, h1, hany, committedWorkout]

/-- C8: a valid commit prepends the newly built workout to the collection,
writes the full new list to storage, resets the draft to a single fresh
empty exercise with one default set, and raises no message. -/
theorem c8_commit_prepends_and_resets (ids : CommitIds) (st : AppState)
    (h1 : jsTrim st.workoutName ≠ "")
    (h2 : ∀ ex ∈ st.exercises, jsTrim ex.name ≠ "") :
    (handleSaveWorkout ids st).1.workouts = committedWorkout ids st :: st.workouts ∧
    (handleSaveWorkout ids st).1.stored =
      some (saveWorkouts (committedWorkout ids st :: st.workouts)) ∧
    (handleSaveWorkout ids st).1.exercises =
      [{ id := ids.freshExId, name := "", sets := [{ reps := some 10, weight := some 0 }] }] ∧
    (handleSaveWorkout ids st).1.workoutName = "" ∧
    (handleSaveWorkout ids st).1.date = ids.todayStr ∧
    (handleSaveWorkout ids st).1.tab = Tab.history ∧
    (handleSaveWorkout ids st).2 = none := by
  rw [handleSaveWorkout_success ids st h1 h2]
  exact ⟨rfl, rfl, rfl, rfl, rfl, rfl, rfl⟩

/-- Demo state with untrimmed names that passes validation. -/
def demoUntrimmedState : AppState :=
  { workouts := [pushDayWorkout], stored := none, tab := Tab.log,
    date := "2024-02-01", workoutName := "  Pull Day  ",
    exercises := [{ id := "e7", name := "  Row  ",
                    sets := [{ reps := some 12, weight := some 60 }] }] }

/-- Witness for C8. -/
theorem c8_witness :
    (handleSaveWorkout demoIds demoUntrimmedState).1.workouts =
      committedWorkout demoIds demoUntrimmedState :: demoUntrimmedState.workouts ∧
    (handleSaveWorkout demoIds demoUntrimmedState).2 = none := by
  have h := c8_commit_prepends_and_resets demoIds demoUntrimmedState
    (by decide) (by decide)
  exact ⟨h.1, h.2.2.2.2.2.2⟩

/-- C10: a valid commit stores the trimmed workout name but passes the
draft's exercise array through exactly as it is — exercise names keep
their whitespace, and every exercise and set field is unchanged. -/
theorem c10_commit_keeps_exercises_untrimmed (ids : CommitIds) (st : AppState)
    (h1 : jsTrim st.workoutName ≠ "")
    (h2 : ∀ ex ∈ st.exercises, jsTrim ex.name ≠ "") :
    (handleSaveWorkout ids st).1.workouts.head? =
      some { id := ids.newId, date := st.date, workoutName := jsTrim st.workoutName,
             exercises := st.exercises, createdAt := ids.createdAt } := by
  rw [handleSaveWorkout_success ids st h1 h2]
  rfl

/-- Witness for C10: the committed workout keeps the exercise name
`"  Row  "` with its whitespace while the workout name is trimmed. -/
theorem c10_witness :
    (handleSaveWorkout demoIds demoUntrimmedState).1.workouts.head? =
      some { id := "w9", date := "2024-02-01", workoutName := "Pull Day",
             exercises := [{ id := "e7", name := "  Row  ",
                             sets := [{ reps := some 12, weight := some 60 }] }],
             createdAt := "T1" } := by
  have h := c10_commit_keeps_exercises_untrimmed demoIds demoUntrimmedState
    (by decide) (by decide)
  rw [h]
  decide

/-! ## C6: the draft keeps one exercise and one set -/

theorem map_id_of_mem {α : Type} (l : List α) (f : α → α) (h : ∀ x ∈ l, f x = x) :
    l.map f = l := by
  induction l with
  | nil => rfl
  | cons a t ih =>
      simp only [List.map_cons, h a (by simp), ih (fun x hx => h x (by simp [hx]))]

theorem enumFrom_filter_ne_of_lt :
    ∀ (l : List SetEntry) (m j : Nat), j < m →
      (List.enumFrom m l).filter (fun p => p.1 ≠ j) = List.enumFrom m l := by
  intro l
  induction l with
  | nil => intro m j _; rfl
  | cons x t ih =>
      intro m j hj
      rw [List.enumFrom_cons, List.filter_cons]
      rw [if_pos (by simp only [decide_eq_true_eq]; omega)]
      rw [ih (m + 1) j (by omega)]

theorem enumFrom_filter_ne_map_snd :
    ∀ (l : List SetEntry) (n k : Nat),
      ((List.enumFrom n l).filter (fun p => p.1 ≠ n + k)).map Prod.snd = l.eraseIdx k := by
  intro l
  induction l with
  | nil => intro n k; rfl
  | cons x t ih =>
      intro n k
      rw [List.enumFrom_cons, List.filter_cons]
      cases k with
      | zero =>
          rw [if_neg (by simp only [decide_eq_true_eq]; omega)]
          rw [enumFrom_filter_ne_of_lt t (n + 1) (n + 0) (by omega)]
          rw [List.enumFrom_map_snd]
          rfl
      | succ k2 =>
          rw [if_pos (by simp only [decide_eq_true_eq]; omega)]
          rw [List.map_cons]
          have harith : n + (k2 + 1) = (n + 1) + k2 := by omega
          rw [harith]
          rw [ih (n + 1) k2]
          rfl

/-- The with-index filter of `removeSet` is exactly removal at one index. -/
theorem filterIdxNe_eq_eraseIdx (sets : List SetEntry) (k : Nat) :
    filterIdxNe sets k = sets.eraseIdx k := by
  have h := enumFrom_filter_ne_map_snd sets 0 k
  simpa [filterIdxNe, List.enum] using h

/-- The structural invariant of a draft: at least one exercise, every
exercise with at least one set, and (the uniqueness the app gets from
`crypto.randomUUID`) pairwise distinct exercise ids. -/
def goodDraft (es : List ExerciseEntry) : Prop :=
  es ≠ [] ∧ (∀ ex ∈ es, ex.sets ≠ []) ∧ (es.map ExerciseEntry.id).Nodup

/-- An operation is well-formed when any fresh id it introduces is new. -/
def okOp (es : List ExerciseEntry) : DraftOp → Bool
  | .opAddExercise i => !(decide (i ∈ es.map ExerciseEntry.id))
  | _ => true

def okOps : List ExerciseEntry → List DraftOp → Bool
  | _, [] => true
  | es, op :: ops => okOp es op && okOps (applyOp es op) ops

theorem goodDraft_map (f : ExerciseEntry → ExerciseEntry)
    (hid : ∀ ex, (f ex).id = ex.id)
    (hsets : ∀ ex : ExerciseEntry, ex.sets ≠ [] → (f ex).sets ≠ [])
    (es : List ExerciseEntry) (h : goodDraft es) : goodDraft (es.map f) := by
  obtain ⟨h1, h2, h3⟩ := h
  refine ⟨by simpa using h1, ?_, ?_⟩
  · intro ex hex
    rw [List.mem_map] at hex
    obtain ⟨y, hy, rfl⟩ := hex
    exact hsets y (h2 y hy)
  · rw [List.map_map]
    have heq : es.map (ExerciseEntry.id ∘ f) = es.map ExerciseEntry.id :=
      List.map_congr_left (fun ex _ => hid ex)
    rw [heq]
    exact h3

theorem length_filter_id_ne (i : String) :
    ∀ es : List ExerciseEntry, (es.map ExerciseEntry.id).Nodup →
      es.length ≤ (es.filter (fun ex => ex.id ≠ i)).length + 1 := by
  intro es
  induction es with
  | nil => intro _; simp
  | cons x t ih =>
      intro hnd
      rw [List.map_cons, List.nodup_cons] at hnd
      rw [List.filter_cons]
      by_cases hx : x.id = i
      · rw [if_neg (by simp [hx])]
        have hall : t.filter (fun ex => ex.id ≠ i) = t := by
          rw [List.filter_eq_self]
          intro y hy
          simp only [decide_eq_true_eq]
          intro hyi
          exact hnd.1 (List.mem_map.mpr ⟨y, hy, hyi.trans hx.symm⟩)
        rw [hall]
        simp
      · rw [if_pos (by simp [hx])]
        have := ih hnd.2
        simp only [List.length_cons]
        omega

theorem goodDraft_applyOp (es : List ExerciseEntry) (op : DraftOp)
    (h : goodDraft es) (hok : okOp es op = true) : goodDraft (applyOp es op) := by
  obtain ⟨h1, h2, h3⟩ := h
  cases op with
  | opAddExercise i =>
      have hni : i ∉ es.map ExerciseEntry.id := by simpa [okOp] using hok
      refine ⟨by simp [applyOp, addExercise], ?_, ?_⟩
      · intro ex hex
        rw [applyOp, addExercise, List.mem_append] at hex
        rcases hex with hex | hex
        · exact h2 ex hex
        · simp only [List.mem_singleton] at hex
          subst hex
          simp [createExercise]
      · show ((es ++ [createExercise i]).map ExerciseEntry.id).Nodup
        rw [List.map_append]
        rw [List.nodup_append]
        refine ⟨h3, by simp, ?_⟩
        intro a ha hb
        simp only [List.map_cons, List.map_nil, List.mem_singleton, createExercise] at hb
        subst hb
        exact hni ha
  | opRemoveExercise i =>
      show goodDraft (removeExercise i es)
      rw [removeExercise]
      by_cases hl : es.length = 1
      · simp only [hl, if_true]
        exact ⟨h1, h2, h3⟩
      · simp only [hl, if_false]
        have hlen2 : 2 ≤ es.length := by
          have : es.length ≠ 0 := fun h0 => h1 (List.eq_nil_of_length_eq_zero h0)
          omega
        refine ⟨?_, ?_, ?_⟩
        · have hge := length_filter_id_ne i es h3
          intro hnil
          rw [hnil] at hge
          simp at hge
          omega
        · intro ex hex
          exact h2 ex (List.mem_of_mem_filter hex)
        · exact ((List.filter_sublist es).map ExerciseEntry.id).nodup h3
  | opRename i n =>
      refine goodDraft_map _ ?_ ?_ es ⟨h1, h2, h3⟩
      · intro ex; by_cases hx : ex.id = i <;> simp [hx]
      · intro ex hst; by_cases hx : ex.id = i <;> simp [hx, hst]
  | opAddSet i =>
      refine goodDraft_map _ ?_ ?_ es ⟨h1, h2, h3⟩
      · intro ex; by_cases hx : ex.id = i <;> simp [hx]
      · intro ex hst; by_cases hx : ex.id = i <;> simp [hx, hst]
  | opRemoveSet i idx =>
      refine goodDraft_map _ ?_ ?_ es ⟨h1, h2, h3⟩
      · intro ex
        by_cases hx : ex.id ≠ i
        · simp [hx]
        · by_cases hns : ex.sets.length = 1 <;> simp [hx, hns]
      · intro ex hst
        by_cases hx : ex.id ≠ i
        · simp [hx, hst]
        · by_cases hns : ex.sets.length = 1
          · simp [hx, hns, hst]
          · have hge2 : 2 ≤ ex.sets.length := by
              have : ex.sets.length ≠ 0 := fun h0 => hst (List.eq_nil_of_length_eq_zero h0)
              omega
            simp only [hx, hns, if_false, ne_eq, not_not]
            intro hcon
            have hlen := congrArg List.length hcon
            rw [filterIdxNe_eq_eraseIdx, List.length_eraseIdx] at hlen
            simp at hlen
            split at hlen <;> omega
  | opUpdateSet i idx f v =>
      refine goodDraft_map _ ?_ ?_ es ⟨h1, h2, h3⟩
      · intro ex; by_cases hx : ex.id = i <;> simp [hx, updateSet]
      · intro ex hst
        by_cases hx : ex.id = i
        · simp only [hx, if_true]
          intro hcon
          have hlen := congrArg List.length hcon
          simp only [List.length_map, List.enumFrom_length, List.length_nil] at hlen
          exact hst (List.eq_nil_of_length_eq_zero (by simpa [List.enum] using hlen))
        · simp [hx, hst]

theorem goodDraft_applyOps (es : List ExerciseEntry) (ops : List DraftOp)
    (h : goodDraft es) (hok : okOps es ops = true) : goodDraft (applyOps es ops) := by
  induction ops generalizing es with
  | nil => exact h
  | cons op rest ih =>
      rw [okOps, Bool.and_eq_true] at hok
      exact ih (applyOp es op) (goodDraft_applyOp es op h hok.1) hok.2

/-- C6: `removeExercise` is a no-op on a one-exercise draft, `removeSet`
is a no-op on a one-set exercise, and along any well-formed operation
sequence the draft keeps at least one exercise, each with at least one
set. -/
theorem c6_removal_guards :
    (∀ (es : List ExerciseEntry) (i : String), es.length = 1 → removeExercise i es = es) ∧
    (∀ (es : List ExerciseEntry) (i : String) (idx : Nat),
      (∀ ex ∈ es, ex.id = i → ex.sets.length = 1) → removeSet i idx es = es) ∧
    (∀ (es : List ExerciseEntry) (ops : List DraftOp), goodDraft es →
      okOps es ops = true →
      applyOps es ops ≠ [] ∧ ∀ ex ∈ applyOps es ops, ex.sets ≠ []) := by
  refine ⟨?_, ?_, ?_⟩
  · intro es i h
    simp [removeExercise, h]
  · intro es i idx h
    rw [removeSet]
    refine map_id_of_mem es _ (fun ex hex => ?_)
    by_cases hx : ex.id ≠ i
    · simp [hx]
    · have hlen : ex.sets.length = 1 := h ex hex (by simpa using hx)
      simp [hx, hlen]
  · intro es ops h hok
    have hg := goodDraft_applyOps es ops h hok
    exact ⟨hg.1, hg.2.1⟩

/-- Witness for C6: a concrete run — add a second exercise, try to remove
the only set twice, remove both exercises; one exercise with one set
survives. -/
theorem c6_witness :
    removeExercise "a" [createExercise "a"] = [createExercise "a"] ∧
    removeSet "a" 0 [createExercise "a"] = [createExercise "a"] ∧
    applyOps [createExercise "a"]
      [DraftOp.opAddExercise "b", DraftOp.opRemoveSet "a" 0,
       DraftOp.opRemoveExercise "a", DraftOp.opRemoveExercise "b"] ≠ [] := by
  refine ⟨c6_removal_guards.1 _ "a" (by decide),
          c6_removal_guards.2.1 _ "a" 0 (by decide),
          (c6_removal_guards.2.2 _ _ ⟨by decide, by decide, by decide⟩ (by decide)).1⟩

/-! ## C1: per-exercise grouping -/

def aggVolumeOf (o : Option ExAgg) : Nat := (o.map ExAgg.totalVolume).getD 0

def aggRepsOf (o : Option ExAgg) : Nat := (o.map ExAgg.totalReps).getD 0

/-- All exercise entries of all workouts, in iteration order. -/
def entriesOf : List Workout → List ExerciseEntry
  | [] => []
  | w :: ws => w.exercises ++ entriesOf ws

/-- Lifetime volume of the grouping key `k`: the sum over every matching
entry of every workout. -/
def totalVolumeFor (ws : List Workout) (k : String) : Nat :=
  (((entriesOf ws).filter (fun ex => exKey ex = k)).map exSetsVolume).sum

def totalRepsFor (ws : List Workout) (k : String) : Nat :=
  (((entriesOf ws).filter (fun ex => exKey ex = k)).map exSetsReps).sum

theorem mapGet_mapSet_self (m : List (String × ExAgg)) (k : String) (v : ExAgg) :
    mapGet (mapSet m k v) k = some v := by
  induction m with
  | nil => simp [mapSet, mapGet]
  | cons p rest ih =>
      obtain ⟨k2, v2⟩ := p
      rw [mapSet]
      by_cases hk : k2 = k
      · simp [hk, mapGet]
      · simp only [hk, if_false]
        simp only [mapGet]
        simp [hk, ih]

theorem mapGet_mapSet_ne (m : List (String × ExAgg)) (k k3 : String) (v : ExAgg)
    (h : k3 ≠ k) : mapGet (mapSet m k v) k3 = mapGet m k3 := by
  have hks : k ≠ k3 := fun hh => h hh.symm
  induction m with
  | nil => simp [mapSet, mapGet, hks]
  | cons p rest ih =>
      obtain ⟨k2, v2⟩ := p
      rw [mapSet]
      by_cases hk : k2 = k
      · subst hk
        simp only [mapGet]
        simp [hks]
      · simp only [hk, if_false]
        simp only [mapGet]
        by_cases h2 : k2 = k3
        · simp [h2]
        · simp [h2, ih]

theorem insertExercise_get_blank (m : List (String × ExAgg)) (ex : ExerciseEntry) :
    mapGet (insertExercise m ex) "" = mapGet m "" := by
  rw [insertExercise]
  by_cases hk : exKey ex = ""
  · simp [hk]
  · simp only [hk, if_false]
    exact mapGet_mapSet_ne _ _ _ _ (fun hh => hk hh.symm)

theorem insertExercise_get (m : List (String × ExAgg)) (ex : ExerciseEntry)
    (k : String) (hk : k ≠ "") :
    aggVolumeOf (mapGet (insertExercise m ex) k) =
      aggVolumeOf (mapGet m k) + (if exKey ex = k then exSetsVolume ex else 0) ∧
    aggRepsOf (mapGet (insertExercise m ex) k) =
      aggRepsOf (mapGet m k) + (if exKey ex = k then exSetsReps ex else 0) ∧
    (mapGet (insertExercise m ex) k ≠ none ↔ mapGet m k ≠ none ∨ exKey ex = k) := by
  rw [insertExercise]
  by_cases hb : exKey ex = ""
  · have hne : exKey ex ≠ k := fun hh => hk (by rw [← hh]; exact hb)
    rw [if_pos hb]
    refine ⟨by rw [if_neg hne]; simp, by rw [if_neg hne]; simp, by simp [hne]⟩
  · simp only [hb, if_false]
    by_cases hx : exKey ex = k
    · rw [hx]
      rw [mapGet_mapSet_self]
      cases hget : mapGet m k with
      | none => simp [aggVolumeOf, aggRepsOf, hget, hx]
      | some a => simp [aggVolumeOf, aggRepsOf, hget, hx]
    · rw [mapGet_mapSet_ne _ _ _ _ (fun hh => hx hh.symm)]
      simp [hx]

theorem foldl_insertExercise (exs : List ExerciseEntry) :
    ∀ (m : List (String × ExAgg)) (k : String), k ≠ "" →
      aggVolumeOf (mapGet (exs.foldl insertExercise m) k) =
        aggVolumeOf (mapGet m k) +
          ((exs.filter (fun ex => exKey ex = k)).map exSetsVolume).sum ∧
      aggRepsOf (mapGet (exs.foldl insertExercise m) k) =
        aggRepsOf (mapGet m k) +
          ((exs.filter (fun ex => exKey ex = k)).map exSetsReps).sum ∧
      (mapGet (exs.foldl insertExercise m) k ≠ none ↔
        mapGet m k ≠ none ∨ ∃ ex ∈ exs, exKey ex = k) := by
  induction exs with
  | nil => intro m k _; simp
  | cons ex rest ih =>
      intro m k hk
      rw [List.foldl_cons]
      obtain ⟨ihv, ihr, ihp⟩ := ih (insertExercise m ex) k hk
      obtain ⟨hv, hr, hp⟩ := insertExercise_get m ex k hk
      refine ⟨?_, ?_, ?_⟩
      · rw [ihv, hv, List.filter_cons]
        by_cases hx : exKey ex = k
        · rw [if_pos (by simp [hx])]
          simp [hx]
          omega
        · rw [if_neg (by simp [hx])]
          simp [hx]
      · rw [ihr, hr, List.filter_cons]
        by_cases hx : exKey ex = k
        · rw [if_pos (by simp [hx])]
          simp [hx]
          omega
        · rw [if_neg (by simp [hx])]
          simp [hx]
      · rw [ihp, hp]
        constructor
        · rintro ((h | h) | h)
          · exact Or.inl h
          · exact Or.inr ⟨ex, by simp, h⟩
          · obtain ⟨y, hy, hyk⟩ := h
            exact Or.inr ⟨y, by simp [hy], hyk⟩
        · rintro (h | ⟨y, hy, hyk⟩)
          · exact Or.inl (Or.inl h)
          · rcases List.mem_cons.mp hy with rfl | hy2
            · exact Or.inl (Or.inr hyk)
            · exact Or.inr ⟨y, hy2, hyk⟩

theorem foldl_insertExercise_blank (exs : List ExerciseEntry) :
    ∀ m : List (String × ExAgg),
      mapGet (exs.foldl insertExercise m) "" = mapGet m "" := by
  induction exs with
  | nil => intro m; rfl
  | cons ex rest ih =>
      intro m
      rw [List.foldl_cons, ih, insertExercise_get_blank]

theorem byExercise_eq_foldl_entries :
    ∀ (ws : List Workout) (m : List (String × ExAgg)),
      ws.foldl (fun m w => w.exercises.foldl insertExercise m) m =
        (entriesOf ws).foldl insertExercise m := by
  intro ws
  induction ws with
  | nil => intro m; rfl
  | cons w rest ih =>
      intro m
      rw [List.foldl_cons, ih, entriesOf, List.foldl_append]

/-- First bench workout: exercise named `"Bench"`, one set of 10 x 40. -/
def benchWorkout1 : Workout :=
  { id := "w1", date := "2024-01-01", workoutName := "Push A",
    exercises := [{ id := "e1", name := "Bench",
                    sets := [{ reps := some 10, weight := some 40 }] }],
    createdAt := "T1" }

/-- Second bench workout: exercise named `" bench "`, one set of 8 x 45. -/
def benchWorkout2 : Workout :=
  { id := "w2", date := "2024-01-02", workoutName := "Push B",
    exercises := [{ id := "e2", name := " bench ",
                    sets := [{ reps := some 8, weight := some 45 }] }],
    createdAt := "T2" }

/-- C1: the per-exercise aggregation groups all entries of all workouts by
trimmed lower-cased name, drops blank names, sums (never overwrites) the
volume and reps of every matching set, and the bar list is the values
sorted by total volume descending cut to 10; `"Bench"` and `" bench "`
across two workouts form one group with the sum of both volumes. -/
theorem c1_top_exercises_by_volume (ws : List Workout) :
    mapGet (byExercise ws) "" = none ∧
    (∀ k : String, k ≠ "" →
      (mapGet (byExercise ws) k ≠ none ↔ ∃ ex ∈ entriesOf ws, exKey ex = k) ∧
      aggVolumeOf (mapGet (byExercise ws) k) = totalVolumeFor ws k ∧
      aggRepsOf (mapGet (byExercise ws) k) = totalRepsFor ws k) ∧
    exerciseBars ws =
      ((((byExercise ws).map Prod.snd).insertionSort
          (fun a b => b.totalVolume ≤ a.totalVolume)).take 10).map
        (fun x => { exercise := x.name, volume := x.totalVolume, reps := x.totalReps }) ∧
    (((byExercise ws).map Prod.snd).insertionSort
        (fun a b => b.totalVolume ≤ a.totalVolume)).Perm ((byExercise ws).map Prod.snd) ∧
    (exerciseBars ws).Pairwise (fun a b => b.volume ≤ a.volume) ∧
    (exerciseBars ws).length = min 10 (byExercise ws).length ∧
    byExercise [benchWorkout1, benchWorkout2] =
      [("bench", { name := "Bench", totalVolume := 760, totalReps := 18 })] := by
  have hfold : byExercise ws = (entriesOf ws).foldl insertExercise [] :=
    byExercise_eq_foldl_entries ws []
  haveI htot : IsTotal ExAgg (fun a b => b.totalVolume ≤ a.totalVolume) :=
    ⟨fun a b => Nat.le_total b.totalVolume a.totalVolume⟩
  haveI htr : IsTrans ExAgg (fun a b => b.totalVolume ≤ a.totalVolume) :=
    ⟨fun _ _ _ hab hbc => Nat.le_trans hbc hab⟩
  have hsorted := List.sorted_insertionSort
    (fun a b : ExAgg => b.totalVolume ≤ a.totalVolume) ((byExercise ws).map Prod.snd)
  refine ⟨?_, ?_, rfl, List.perm_insertionSort _ _, ?_, ?_, by decide⟩
  · rw [hfold]
    exact foldl_insertExercise_blank (entriesOf ws) []
  · intro k hk
    have h := foldl_insertExercise (entriesOf ws) [] k hk
    rw [hfold]
    refine ⟨?_, ?_, ?_⟩
    · rw [h.2.2]
      simp [mapGet]
    · rw [h.1]
      simp [mapGet, aggVolumeOf, totalVolumeFor]
    · rw [h.2.1]
      simp [mapGet, aggRepsOf, totalRepsFor]
  · rw [exerciseBars]
    rw [List.pairwise_map]
    exact (hsorted.sublist (List.take_sublist 10 _))
  · rw [exerciseBars]
    rw [List.length_map, List.length_take, List.length_insertionSort, List.length_map]

/-- Witness for C1: in the two bench workouts, the key `"bench"` holds the
summed volume of both differently written names. -/
theorem c1_witness :
    aggVolumeOf (mapGet (byExercise [benchWorkout1, benchWorkout2]) "bench") =
      totalVolumeFor [benchWorkout1, benchWorkout2] "bench" :=
  (((c1_top_exercises_by_volume [benchWorkout1, benchWorkout2]).2.1 "bench"
    (by decide)).2).1

/-! ## JSON round-trip: digits and numbers -/

/-- A list that cannot extend a digit run: empty or headed by a non-digit.
Every JSON delimiter and the end of the blob qualify. -/
def noDigitHead : List Char → Bool
  | [] => true
  | c :: _ => !(isDigitCh c)

theorem digit_char_spec (d : Nat) (h : d < 10) :
    (Char.ofNat (48 + d)).toNat = 48 + d ∧ isDigitCh (Char.ofNat (48 + d)) = true := by
  interval_cases d <;> exact ⟨by decide, by decide⟩

theorem natCharsAux_irrel (f1 : Nat) :
    ∀ (f2 n : Nat), n < f1 → n < f2 → natCharsAux f1 n = natCharsAux f2 n := by
  induction f1 with
  | zero => intro f2 n h1 _; omega
  | succ g1 ih =>
      intro f2 n h1 h2
      cases f2 with
      | zero => omega
      | succ g2 =>
          rw [natCharsAux, natCharsAux]
          by_cases hn : n < 10
          · simp [hn]
          · simp only [hn, if_false]
            rw [ih g2 (n / 10) (by omega) (by omega)]

theorem natChars_unfold (n : Nat) :
    natChars n = if n < 10 then [Char.ofNat (48 + n)]
                 else natChars (n / 10) ++ [Char.ofNat (48 + n % 10)] := by
  rw [natChars, natCharsAux]
  by_cases hn : n < 10
  · simp [hn]
  · simp only [hn, if_false]
    rw [natCharsAux_irrel n (n / 10 + 1) (n / 10) (by omega) (by omega)]
    rfl

theorem natChars_ne_nil (n : Nat) : natChars n ≠ [] := by
  rw [natChars_unfold]
  by_cases hn : n < 10 <;> simp [hn]

theorem natChars_digits (n : Nat) : ∀ c ∈ natChars n, isDigitCh c = true := by
  induction n using Nat.strong_induction_on with
  | _ n ih =>
      rw [natChars_unfold]
      by_cases hn : n < 10
      · simp only [hn, if_true, List.mem_singleton]
        rintro c rfl
        exact (digit_char_spec n hn).2
      · simp only [hn, if_false]
        intro c hc
        rcases List.mem_append.mp hc with h | h
        · exact ih (n / 10) (by omega) c h
        · rw [List.mem_singleton] at h
          subst h
          exact (digit_char_spec (n % 10) (by omega)).2

theorem natChars_foldl (n : Nat) :
    (natChars n).foldl (fun acc c => acc * 10 + (c.toNat - 48)) 0 = n := by
  induction n using Nat.strong_induction_on with
  | _ n ih =>
      rw [natChars_unfold]
      by_cases hn : n < 10
      · simp only [hn, if_true, List.foldl_cons, List.foldl_nil]
        rw [(digit_char_spec n hn).1]
        omega
      · simp only [hn, if_false, List.foldl_append, List.foldl_cons, List.foldl_nil]
        rw [ih (n / 10) (by omega), (digit_char_spec (n % 10) (by omega)).1]
        omega

theorem parseNatAcc_stop (acc : Nat) (cs : List Char) (h : noDigitHead cs = true) :
    parseNatAcc acc cs = (acc, cs) := by
  cases cs with
  | nil => rfl
  | cons c t =>
      have hd : isDigitCh c = false := by simpa [noDigitHead] using h
      simp [parseNatAcc, hd]

theorem parseNatAcc_run (ds : List Char) :
    ∀ (acc : Nat) (rest : List Char),
      (∀ c ∈ ds, isDigitCh c = true) → noDigitHead rest = true →
      parseNatAcc acc (ds ++ rest) =
        (ds.foldl (fun acc c => acc * 10 + (c.toNat - 48)) acc, rest) := by
  induction ds with
  | nil => intro acc rest _ hr; simpa using parseNatAcc_stop acc rest hr
  | cons d t ih =>
      intro acc rest hds hr
      have hd : isDigitCh d = true := hds d (by simp)
      rw [List.cons_append, parseNatAcc, if_pos hd]
      rw [ih _ rest (fun c hc => hds c (by simp [hc])) hr]
      simp

theorem parseNatAcc_natChars (n : Nat) (rest : List Char)
    (hr : noDigitHead rest = true) :
    parseNatAcc 0 (natChars n ++ rest) = (n, rest) := by
  rw [parseNatAcc_run (natChars n) 0 rest (natChars_digits n) hr, natChars_foldl]

theorem isDigitCh_cases (c : Char) (h : isDigitCh c = true) :
    c = '0' ∨ c = '1' ∨ c = '2' ∨ c = '3' ∨ c = '4' ∨
    c = '5' ∨ c = '6' ∨ c = '7' ∨ c = '8' ∨ c = '9' := by
  have hb : 48 ≤ c.toNat ∧ c.toNat ≤ 57 := by simpa [isDigitCh] using h
  have h10 : c.toNat = 48 ∨ c.toNat = 49 ∨ c.toNat = 50 ∨ c.toNat = 51 ∨
      c.toNat = 52 ∨ c.toNat = 53 ∨ c.toNat = 54 ∨ c.toNat = 55 ∨
      c.toNat = 56 ∨ c.toNat = 57 := by omega
  have hofn := (Char.ofNat_toNat c).symm
  rcases h10 with h2 | h2 | h2 | h2 | h2 | h2 | h2 | h2 | h2 | h2 <;>
    rw [h2] at hofn <;> rw [hofn] <;> simp

/-- A digit head always takes the parser's number branch. -/
theorem parseVal_digit_head (f : Nat) (c : Char) (t : List Char)
    (h : isDigitCh c = true) :
    parseVal (f + 1) (c :: t) =
      some (.jnum ((parseNatAcc 0 (c :: t)).1 : Int), (parseNatAcc 0 (c :: t)).2) := by
  rcases isDigitCh_cases c h with h2 | h2 | h2 | h2 | h2 | h2 | h2 | h2 | h2 | h2 <;>
    subst h2 <;> rfl

/-- The default branch of `parseStrBody`: any unescaped character other
than quote and backslash is kept verbatim. -/
theorem parseStrBody_other (c : Char) (cs : List Char)
    (h1 : c ≠ '"') (h2 : c ≠ '\\') :
    parseStrBody (c :: cs) =
      match parseStrBody cs with
      | some (s, rest) => some (c :: s, rest)
      | none => none := by
  rw [parseStrBody.eq_def]
  split
  · rename_i heq
    exact absurd heq (by simp)
  · rename_i heq
    rw [List.cons.injEq] at heq
    exact absurd heq.1 h1
  · rename_i heq
    rw [List.cons.injEq] at heq
    exact absurd heq.1 h2
  · rename_i heq
    rw [List.cons.injEq] at heq
    rw [heq.1, heq.2]

theorem parseStrBody_escape (cs : List Char) :
    ∀ rest : List Char, parseStrBody (escList cs ++ '"' :: rest) = some (cs, rest) := by
  induction cs with
  | nil => intro rest; rfl
  | cons c t ih =>
      intro rest
      have hesc : escList (c :: t) = escChar c ++ escList t := rfl
      rw [hesc, List.append_assoc]
      by_cases hc : c = '"' ∨ c = '\\'
      · rw [escChar, if_pos hc]
        show parseStrBody ('\\' :: c :: (escList t ++ '"' :: rest)) = some (c :: t, rest)
        rw [parseStrBody, ih rest]
      · rw [escChar, if_neg hc]
        push_neg at hc
        show parseStrBody (c :: (escList t ++ '"' :: rest)) = some (c :: t, rest)
        rw [parseStrBody_other c _ hc.1 hc.2, ih rest]

/-- Every serialized value starts with a character other than `]` and `}`
and other than the item separator. -/
theorem serVal_head (v : JValue) :
    ∃ c t, serVal v = c :: t ∧ c ≠ ']' ∧ c ≠ '}' := by
  cases v with
  | jnull => exact ⟨'n', _, rfl, by decide, by decide⟩
  | jbool b =>
      cases b with
      | true => exact ⟨'t', _, rfl, by decide, by decide⟩
      | false => exact ⟨'f', _, rfl, by decide, by decide⟩
  | jstr s => exact ⟨'"', _, rfl, by decide, by decide⟩
  | jarr xs => exact ⟨'[', _, rfl, by decide, by decide⟩
  | jobj fs => exact ⟨'{', _, rfl, by decide, by decide⟩
  | jnum i =>
      by_cases hi : i < 0
      · exact ⟨'-', natChars i.natAbs, by simp [serVal, intChars, hi], by decide, by decide⟩
      · obtain ⟨d, ds, hd⟩ := List.exists_cons_of_ne_nil (natChars_ne_nil i.natAbs)
        have hdig : isDigitCh d = true := natChars_digits _ d (by rw [hd]; simp)
        refine ⟨d, ds, by simp [serVal, intChars, hi, hd], ?_, ?_⟩
        · intro hcon
          rw [hcon] at hdig
          exact absurd hdig (by decide)
        · intro hcon
          rw [hcon] at hdig
          exact absurd hdig (by decide)

theorem serItems_cons_head (x : JValue) (xs : JItems) :
    ∃ c t, serItems (.cons x xs) = c :: t ∧ c ≠ ']' ∧ c ≠ '}' := by
  obtain ⟨c, t, hct, h1, h2⟩ := serVal_head x
  cases xs with
  | nil => exact ⟨c, t, by rw [serItems, hct], h1, h2⟩
  | cons y ys =>
      exact ⟨c, t ++ ',' :: serItems (.cons y ys), by rw [serItems, hct]; rfl, h1, h2⟩

theorem serFields_cons_head (k : String) (v : JValue) (fs : JFields) :
    ∃ t, serFields (.cons k v fs) = '"' :: t := by
  cases fs with
  | nil => exact ⟨_, rfl⟩
  | cons k2 v2 fs2 => exact ⟨_, rfl⟩

/-! ## JSON round-trip: the main induction -/

mutual
theorem rtVal : ∀ (v : JValue) (f : Nat) (rest : List Char),
    (serVal v).length < f → noDigitHead rest = true →
    parseVal f (serVal v ++ rest) = some (v, rest)
  | .jnull, f, rest, hf, _ => by
      cases f with
      | zero => exact absurd hf (by omega)
      | succ g => rfl
  | .jbool true, f, rest, hf, _ => by
      cases f with
      | zero => exact absurd hf (by omega)
      | succ g => rfl
  | .jbool false, f, rest, hf, _ => by
      cases f with
      | zero => exact absurd hf (by omega)
      | succ g => rfl
  | .jnum i, f, rest, hf, hr => by
      cases f with
      | zero => exact absurd hf (by omega)
      | succ g =>
          obtain ⟨d, ds, hd⟩ := List.exists_cons_of_ne_nil (natChars_ne_nil i.natAbs)
          have hdig : isDigitCh d = true := natChars_digits _ d (by rw [hd]; simp)
          have hrun : parseNatAcc 0 (natChars i.natAbs ++ rest) = (i.natAbs, rest) :=
            parseNatAcc_natChars _ rest hr
          rw [hd, List.cons_append] at hrun
          by_cases hi : i < 0
          · have hser : serVal (.jnum i) ++ rest = '-' :: d :: (ds ++ rest) := by
              rw [show serVal (.jnum i) = intChars i from rfl, intChars, if_pos hi, hd]
              rfl
            rw [hser]
            have hstep : parseVal (g + 1) ('-' :: d :: (ds ++ rest)) =
                if isDigitCh d then
                  some (.jnum (-((parseNatAcc 0 (d :: (ds ++ rest))).1 : Int)),
                        (parseNatAcc 0 (d :: (ds ++ rest))).2)
                else none := rfl
            rw [hstep, if_pos hdig, hrun]
            show some (JValue.jnum (-((i.natAbs : Int))), rest) = some (JValue.jnum i, rest)
            have hcast : -((i.natAbs : Int)) = i := by omega
            rw [hcast]
          · have hser : serVal (.jnum i) ++ rest = d :: (ds ++ rest) := by
              rw [show serVal (.jnum i) = intChars i from rfl, intChars, if_neg hi, hd]
              rfl
            rw [hser, parseVal_digit_head g d (ds ++ rest) hdig, hrun]
            show some (JValue.jnum ((i.natAbs : Int)), rest) = some (JValue.jnum i, rest)
            have hcast : ((i.natAbs : Int)) = i := by omega
            rw [hcast]
  | .jstr s, f, rest, hf, _ => by
      cases f with
      | zero => exact absurd hf (by omega)
      | succ g =>
          have hser : serVal (.jstr s) ++ rest =
              '"' :: (escList s.data ++ '"' :: rest) := by
            rw [show serVal (.jstr s) = '"' :: (escList s.data ++ ['"']) from rfl]
            simp
          rw [hser]
          have hstep : parseVal (g + 1) ('"' :: (escList s.data ++ '"' :: rest)) =
              match parseStrBody (escList s.data ++ '"' :: rest) with
              | some (s2, rest2) => some (.jstr (String.mk s2), rest2)
              | none => none := rfl
          rw [hstep, parseStrBody_escape s.data rest]
  | .jarr .nil, f, rest, hf, _ => by
      cases f with
      | zero => exact absurd hf (by omega)
      | succ g =>
          have hser : serVal (.jarr .nil) ++ rest = '[' :: ']' :: rest := rfl
          rw [hser]
          rfl
  | .jarr (.cons x xs), f, rest, hf, _ => by
      cases f with
      | zero => exact absurd hf (by omega)
      | succ g =>
          obtain ⟨c, t, hct, hc, _⟩ := serItems_cons_head x xs
          have hser : serVal (.jarr (.cons x xs)) ++ rest =
              '[' :: (serItems (.cons x xs) ++ ']' :: rest) := by
            rw [show serVal (.jarr (.cons x xs)) =
              '[' :: (serItems (.cons x xs) ++ [']']) from rfl]
            simp
          have hcons : serItems (.cons x xs) ++ ']' :: rest = c :: (t ++ ']' :: rest) := by
            rw [hct]
            rfl
          have hstep : parseVal (g + 1) ('[' :: (c :: (t ++ ']' :: rest))) =
              if c = ']' then some (.jarr .nil, t ++ ']' :: rest)
              else
                match parseItems g (c :: (t ++ ']' :: rest)) with
                | some (xs2, rest2) => some (.jarr xs2, rest2)
                | none => none := rfl
          have hflen : (serItems (.cons x xs)).length + 1 < g := by
            have h2 : (serVal (.jarr (.cons x xs))).length =
                (serItems (.cons x xs)).length + 2 := by
              rw [show serVal (.jarr (.cons x xs)) =
                '[' :: (serItems (.cons x xs) ++ [']']) from rfl]
              simp
            omega
          rw [hser, hcons, hstep, if_neg hc, ← hcons,
            rtItems x xs g rest hflen]
  | .jobj .nil, f, rest, hf, _ => by
      cases f with
      | zero => exact absurd hf (by omega)
      | succ g =>
          have hser : serVal (.jobj .nil) ++ rest = '{' :: '}' :: rest := rfl
          rw [hser]
          rfl
  | .jobj (.cons k v fs), f, rest, hf, _ => by
      cases f with
      | zero => exact absurd hf (by omega)
      | succ g =>
          obtain ⟨t, hct⟩ := serFields_cons_head k v fs
          have hser : serVal (.jobj (.cons k v fs)) ++ rest =
              '{' :: (serFields (.cons k v fs) ++ '}' :: rest) := by
            rw [show serVal (.jobj (.cons k v fs)) =
              '{' :: (serFields (.cons k v fs) ++ ['}']) from rfl]
            simp
          have hcons : serFields (.cons k v fs) ++ '}' :: rest =
              '"' :: (t ++ '}' :: rest) := by
            rw [hct]
            rfl
          have hstep : parseVal (g + 1) ('{' :: ('"' :: (t ++ '}' :: rest))) =
              if ('"' : Char) = '}' then some (.jobj .nil, t ++ '}' :: rest)
              else
                match parseFields g ('"' :: (t ++ '}' :: rest)) with
                | some (fs2, rest2) => some (.jobj fs2, rest2)
                | none => none := rfl
          have hflen : (serFields (.cons k v fs)).length + 1 < g := by
            have h2 : (serVal (.jobj (.cons k v fs))).length =
                (serFields (.cons k v fs)).length + 2 := by
              rw [show serVal (.jobj (.cons k v fs)) =
                '{' :: (serFields (.cons k v fs) ++ ['}']) from rfl]
              simp
            omega
          rw [hser, hcons, hstep, if_neg (by decide), ← hcons,
            rtFields k v fs g rest hflen]
termination_by v _ _ _ _ => sizeOf v

theorem rtItems : ∀ (x : JValue) (xs : JItems) (f : Nat) (rest : List Char),
    (serItems (.cons x xs)).length + 1 < f →
    parseItems f (serItems (.cons x xs) ++ ']' :: rest) = some (.cons x xs, rest)
  | x, .nil, f, rest, hf => by
      cases f with
      | zero => exact absurd hf (by omega)
      | succ g =>
          have hsi : serItems (JItems.cons x .nil) = serVal x := rfl
          rw [hsi] at hf ⊢
          rw [parseItems]
          rw [rtVal x g (']' :: rest) (by omega) (by rfl)]
          rfl
  | x, .cons y ys, f, rest, hf => by
      cases f with
      | zero => exact absurd hf (by omega)
      | succ g =>
          have hsi : serItems (.cons x (.cons y ys)) =
              serVal x ++ ',' :: serItems (.cons y ys) := rfl
          have hlen : (serItems (.cons x (.cons y ys))).length =
              (serVal x).length + 1 + (serItems (.cons y ys)).length := by
            rw [hsi]
            simp
            omega
          have hshape : serItems (.cons x (.cons y ys)) ++ ']' :: rest =
              serVal x ++ (',' :: (serItems (.cons y ys) ++ ']' :: rest)) := by
            rw [hsi]
            simp
          rw [hshape, parseItems]
          rw [rtVal x g (',' :: (serItems (.cons y ys) ++ ']' :: rest))
            (by omega) (by rfl)]
          show (match parseItems g (serItems (.cons y ys) ++ ']' :: rest) with
                | some (xs2, rest3) => some (JItems.cons x xs2, rest3)
                | none => none) = some (.cons x (.cons y ys), rest)
          rw [rtItems y ys g rest (by omega)]
termination_by x xs _ _ _ => sizeOf x + sizeOf xs + 1

theorem rtFields : ∀ (k : String) (v : JValue) (fs : JFields) (f : Nat)
    (rest : List Char),
    (serFields (.cons k v fs)).length + 1 < f →
    parseFields f (serFields (.cons k v fs) ++ '}' :: rest) = some (.cons k v fs, rest)
  | k, v, .nil, f, rest, hf => by
      cases f with
      | zero => exact absurd hf (by omega)
      | succ g =>
          have hsf : serFields (.cons k v .nil) =
              '"' :: (escList k.data ++ ('"' :: ':' :: serVal v)) := rfl
          have hlen : (serFields (.cons k v .nil)).length =
              (escList k.data).length + (serVal v).length + 3 := by
            rw [hsf]
            simp
            omega
          have hshape : serFields (.cons k v .nil) ++ '}' :: rest =
              '"' :: (escList k.data ++ '"' :: (':' :: (serVal v ++ '}' :: rest))) := by
            rw [hsf]
            simp
          rw [hshape]
          have hstep : ∀ X : List Char, parseFields (g + 1) ('"' :: X) =
              match parseStrBody X with
              | none => none
              | some (k2, rest2) =>
                  match rest2 with
                  | ':' :: rest3 =>
                      match parseVal g rest3 with
                      | none => none
                      | some (v2, rest4) =>
                          match rest4 with
                          | ',' :: rest5 =>
                              match parseFields g rest5 with
                              | some (fs2, rest6) =>
                                  some (.cons (String.mk k2) v2 fs2, rest6)
                              | none => none
                          | '}' :: rest5 => some (.cons (String.mk k2) v2 .nil, rest5)
                          | _ => none
                  | _ => none := fun X => rfl
          rw [hstep, parseStrBody_escape k.data (':' :: (serVal v ++ '}' :: rest))]
          show (match parseVal g (serVal v ++ '}' :: rest) with
                | none => none
                | some (v2, rest4) =>
                    match rest4 with
                    | ',' :: rest5 =>
                        match parseFields g rest5 with
                        | some (fs2, rest6) =>
                            some (JFields.cons (String.mk k.data) v2 fs2, rest6)
                        | none => none
                    | '}' :: rest5 =>
                        some (JFields.cons (String.mk k.data) v2 JFields.nil, rest5)
                    | _ => none) = some (JFields.cons k v JFields.nil, rest)
          rw [rtVal v g ('}' :: rest) (by omega) (by rfl)]
          rfl
  | k, v, .cons k2 v2 fs2, f, rest, hf => by
      cases f with
      | zero => exact absurd hf (by omega)
      | succ g =>
          have hsf : serFields (.cons k v (.cons k2 v2 fs2)) =
              ('"' :: (escList k.data ++ ('"' :: ':' :: serVal v))) ++
                ',' :: serFields (.cons k2 v2 fs2) := rfl
          have hlen : (serFields (.cons k v (.cons k2 v2 fs2))).length =
              (escList k.data).length + (serVal v).length +
                (serFields (.cons k2 v2 fs2)).length + 4 := by
            rw [hsf]
            simp
            omega
          have hshape : serFields (.cons k v (.cons k2 v2 fs2)) ++ '}' :: rest =
              '"' :: (escList k.data ++ '"' ::
                (':' :: (serVal v ++
                  ',' :: (serFields (.cons k2 v2 fs2) ++ '}' :: rest)))) := by
            rw [hsf]
            simp
          rw [hshape]
          have hstep : ∀ X : List Char, parseFields (g + 1) ('"' :: X) =
              match parseStrBody X with
              | none => none
              | some (k3, rest2) =>
                  match rest2 with
                  | ':' :: rest3 =>
                      match parseVal g rest3 with
                      | none => none
                      | some (v3, rest4) =>
                          match rest4 with
                          | ',' :: rest5 =>
                              match parseFields g rest5 with
                              | some (fs3, rest6) =>
                                  some (.cons (String.mk k3) v3 fs3, rest6)
                              | none => none
                          | '}' :: rest5 => some (.cons (String.mk k3) v3 .nil, rest5)
                          | _ => none
                  | _ => none := fun X => rfl
          rw [hstep, parseStrBody_escape k.data
            (':' :: (serVal v ++ ',' :: (serFields (.cons k2 v2 fs2) ++ '}' :: rest)))]
          show (match parseVal g
                  (serVal v ++ ',' :: (serFields (.cons k2 v2 fs2) ++ '}' :: rest)) with
                | none => none
                | some (v3, rest4) =>
                    match rest4 with
                    | ',' :: rest5 =>
                        match parseFields g rest5 with
                        | some (fs3, rest6) =>
                            some (JFields.cons (String.mk k.data) v3 fs3, rest6)
                        | none => none
                    | '}' :: rest5 =>
                        some (JFields.cons (String.mk k.data) v3 JFields.nil, rest5)
                    | _ => none) = some (JFields.cons k v (JFields.cons k2 v2 fs2), rest)
          rw [rtVal v g (',' :: (serFields (.cons k2 v2 fs2) ++ '}' :: rest))
            (by omega) (by rfl)]
          show (match parseFields g (serFields (.cons k2 v2 fs2) ++ '}' :: rest) with
                | some (fs3, rest6) => some (JFields.cons (String.mk k.data) v fs3, rest6)
                | none => none) = some (JFields.cons k v (JFields.cons k2 v2 fs2), rest)
          rw [rtFields k2 v2 fs2 g rest (by omega)]
termination_by k v fs _ _ _ => sizeOf v + sizeOf fs + 1
end

/-- Full codec round-trip: parsing a stringified value recovers it. -/
theorem parseJson_stringify (v : JValue) : parseJson (stringifyVal v) = some v := by
  have h := rtVal v ((serVal v).length + 1) [] (by omega) (by rfl)
  rw [List.append_nil] at h
  show (match parseVal ((serVal v).length + 1) (serVal v) with
        | some (v2, []) => some v2
        | _ => none) = some v
  rw [h]

theorem toList_ofList (xs : List JValue) : (JItems.ofList xs).toList = xs := by
  induction xs with
  | nil => rfl
  | cons x t ih => simp [JItems.ofList, JItems.toList, ih]

/-! ## C2: load fails open -/

/-- C2: `loadWorkouts` is total (never raises), and returns the empty
sequence whenever the blob is absent, whenever the blob does not parse as
JSON, and whenever it parses to a non-array value. -/
theorem c2_load_fails_open :
    loadWorkouts none = [] ∧
    (∀ s : String, parseJson s = none → loadWorkouts (some s) = []) ∧
    (∀ (s : String) (v : JValue), parseJson s = some v →
      (∀ xs : JItems, v ≠ .jarr xs) → loadWorkouts (some s) = []) := by
  refine ⟨rfl, ?_, ?_⟩
  · intro s hp
    by_cases hs : s = ""
    · simp [loadWorkouts, hs]
    · simp [loadWorkouts, hs, hp]
  · intro s v hp hnv
    by_cases hs : s = ""
    · simp [loadWorkouts, hs]
    · simp only [loadWorkouts, hs, if_false, hp]

/-- Witness for C2: an absent blob, a non-JSON blob and a non-array blob
all load as the empty collection. -/
theorem c2_witness :
    loadWorkouts none = [] ∧ loadWorkouts (some "nope") = [] ∧
    loadWorkouts (some "12") = [] :=
  ⟨c2_load_fails_open.1,
   c2_load_fails_open.2.1 "nope" (by decide),
   c2_load_fails_open.2.2 "12" (.jnum 12) (by decide) (fun xs h => by simp at h)⟩

/-! ## C9: save after load is a semantic no-op -/

/-- C9: for every persisted blob, loading and immediately saving the loaded
collection back produces a blob from which a subsequent load returns the
same sequence. -/
theorem c9_save_load_idempotent (raw : Option String) :
    loadWorkouts (some (stringifyItems (loadWorkouts raw))) = loadWorkouts raw := by
  have hrt := parseJson_stringify (.jarr (JItems.ofList (loadWorkouts raw)))
  have hne : stringifyItems (loadWorkouts raw) ≠ "" := by
    rw [stringifyItems, stringifyVal]
    intro hcon
    have hdata : serVal (.jarr (JItems.ofList (loadWorkouts raw))) = [] := by
      have h2 := congrArg String.data hcon
      simpa using h2
    rw [show serVal (.jarr (JItems.ofList (loadWorkouts raw))) =
      '[' :: (serItems (JItems.ofList (loadWorkouts raw)) ++ [']']) from rfl] at hdata
    simp at hdata
  show (if stringifyItems (loadWorkouts raw) = "" then ([] : List JValue)
        else match parseJson (stringifyItems (loadWorkouts raw)) with
             | some (.jarr xs) => xs.toList
             | some _ => []
             | none => []) = loadWorkouts raw
  rw [if_neg hne]
  rw [show parseJson (stringifyItems (loadWorkouts raw)) =
    some (.jarr (JItems.ofList (loadWorkouts raw))) from hrt]
  show (JItems.ofList (loadWorkouts raw)).toList = loadWorkouts raw
  exact toList_ofList _
